import Mathlib

/-!
Verification of the offleaf compilation-and-dependency pipeline
(`src/src-tauri/src/lib.rs`).

Strings are modelled as `List Char`.  Rust's `str` operations
(`starts_with`, `strip_prefix`, `trim`, `trim_start_matches`, `find`,
`split`, `lines`, `contains`, `parse::<i32>`) are embedded below as
executable functions on character lists.  External effects (process
spawns, the filesystem, the TeX registry) are abstracted as explicit
environment records or oracle functions passed to the embedded
operations.
-/

namespace Offleaf

/-- Character list of a string literal. -/
def str (s : String) : List Char := s.data

/-- Whitespace predicate used by `trim` (models `char::is_whitespace`
on the ASCII fragment relevant here). -/
def isWS (c : Char) : Bool := c.isWhitespace

/-- Rust `str::trim`: drop whitespace from both ends. -/
def trimChars (l : List Char) : List Char :=
  ((l.dropWhile isWS).reverse.dropWhile isWS).reverse

/-- Rust `str::starts_with(c)` for a single character. -/
def startsWithCh (c : Char) : List Char → Bool
  | [] => false
  | d :: _ => d = c

/-- Rust `str::strip_prefix(pat)`: remove a literal from the front,
`none` when the literal is not there. -/
def dropLit : List Char → List Char → Option (List Char)
  | [], l => some l
  | _ :: _, [] => none
  | c :: p, d :: l => if d = c then dropLit p l else none

/-- Whether `pat` occurs at the very front of `l`. -/
def hasPre (pat l : List Char) : Bool := (dropLit pat l).isSome

/-- Rust `str::contains(pat)`: substring occurrence. -/
def containsSub (pat : List Char) : List Char → Bool
  | [] => hasPre pat []
  | c :: t => hasPre pat (c :: t) || containsSub pat t

/-- Rust `str::split(sep)` for a single-character separator: always
returns at least one (possibly empty) piece. -/
def splitChar (sep : Char) : List Char → List (List Char)
  | [] => [[]]
  | c :: t =>
    if c = sep then [] :: splitChar sep t
    else
      match splitChar sep t with
      | [] => [[c]]
      | h :: r => (c :: h) :: r

/-- Remove one trailing carriage return, as `str::lines` does per line. -/
def stripCR (l : List Char) : List Char :=
  match l.reverse with
  | c :: t => if c = '\r' then t.reverse else l
  | [] => l

/-- Rust `str::lines`: split on newline, drop a final empty piece
produced by a trailing newline, strip one trailing CR per line. -/
def rustLines (s : List Char) : List (List Char) :=
  if s = [] then []
  else
    let parts := splitChar '\n' s
    let parts2 := if parts.getLast? = some [] then parts.dropLast else parts
    parts2.map stripCR

/-- Numeric value of a decimal digit list. -/
def digitsVal (l : List Char) : Nat :=
  l.foldl (fun a c => a * 10 + (c.toNat - 48)) 0

/-- All characters are ASCII decimal digits. -/
def allDigits (l : List Char) : Bool := l.all (·.isDigit)

/-- Unsigned part of `i32::from_str`: nonempty digit run whose value
fits below the given bound, otherwise a parse error. -/
def parseMag (l : List Char) (bound : Nat) : Option Int :=
  if l ≠ [] ∧ allDigits l = true then
    if digitsVal l ≤ bound then some (digitsVal l) else none
  else none

/-- Rust `str::parse::<i32>()`: optional sign, decimal digits, value
must fit in a 32-bit signed integer. -/
def parseI32 (l : List Char) : Option Int :=
  match l with
  | [] => none
  | c :: t =>
    if c = '+' then parseMag t 2147483647
    else if c = '-' then (parseMag t 2147483648).map (fun v => -v)
    else parseMag (c :: t) 2147483647

/-- `CompilationError` from the source: 1-based line (0 = unknown),
message text, optional file attribution. -/
structure CompilationError where
  line : Int
  message : List Char
  file : Option (List Char)
deriving DecidableEq

/-- `CompilationWarning` from the source. -/
structure CompilationWarning where
  line : Int
  message : List Char
  file : Option (List Char)
deriving DecidableEq

/-- The records one physical log line contributes inside the
`parse_latex_log` loop: the if/else chain of the source, each branch
pushing at most one error or one warning. -/
def lineRecords (l : List Char) : List CompilationError × List CompilationWarning :=
  if startsWithCh '!' l then
    ([⟨0, trimChars (l.dropWhile (· = '!')), none⟩], [])
  else
    match dropLit (str "l.") l with
    | some stripped =>
      if stripped.any (· = ' ') then
        match parseI32 (stripped.takeWhile (· ≠ ' ')) with
        | some v =>
          let msg := trimChars (stripped.dropWhile (· ≠ ' '))
          if msg = [] then ([], []) else ([⟨v, msg, none⟩], [])
        | none => ([], [])
      else ([], [])
    | none =>
      if containsSub (str "Warning:") l then ([], [⟨0, l, none⟩])
      else if containsSub (str "LaTeX Error:") l then ([⟨0, l, none⟩], [])
      else ([], [])

/-- The `for line in log.lines()` loop of `parse_latex_log`, with the
two `Vec` accumulators made explicit. -/
def parseLines : List (List Char) → List CompilationError → List CompilationWarning →
    List CompilationError × List CompilationWarning
  | [], es, ws => (es, ws)
  | l :: ls, es, ws => parseLines ls (es ++ (lineRecords l).1) (ws ++ (lineRecords l).2)

/-- `parse_latex_log`: raw log text to (errors, warnings). -/
def parse_latex_log (log : List Char) : List CompilationError × List CompilationWarning :=
  parseLines (rustLines log) [] []

/-!
Dependency extractor.  The source uses the regex
`\\usepackage\s*(?:\[([^\]]*)\])?\s*\{([^}]+)\}` (and the same shape
for `\RequirePackage`) with `captures_iter`: leftmost, non-overlapping
matches.  `tryMatch` decides whether one match starts at the head of
the input, returning the optional bracket capture, the brace capture
and the rest of the input after the match.
-/

/-- Attempt one regex match at the current position: the literal
command name, `\s*`, an optional `[options]` group, `\s*`, then a
nonempty brace group. -/
def tryMatch (lit : List Char) (s : List Char) :
    Option (Option (List Char) × List Char × List Char) :=
  match dropLit lit s with
  | none => none
  | some r1 =>
    let r2 := r1.dropWhile isWS
    let or3 :=
      match r2 with
      | '[' :: t =>
        match t.dropWhile (· ≠ ']') with
        | ']' :: t2 => (some (t.takeWhile (· ≠ ']')), t2)
        | _ => (none, r2)
      | _ => (none, r2)
    match or3.2.dropWhile isWS with
    | '{' :: t =>
      match t.dropWhile (· ≠ '}') with
      | '}' :: rest =>
        let body := t.takeWhile (· ≠ '}')
        if body = [] then none else some (or3.1, body, rest)
      | _ => none
    | _ => none

/-- `captures_iter`: scan left to right, emitting non-overlapping
matches and resuming after each match end.  Fuel bounds the recursion;
it is called with the input length, which suffices because every step
consumes at least one character. -/
def scanFor (lit : List Char) : Nat → List Char → List (Option (List Char) × List Char)
  | 0, _ => []
  | _ + 1, [] => []
  | n + 1, c :: rest =>
    match tryMatch lit (c :: rest) with
    | some (opts, body, remaining) => (opts, body) :: scanFor lit n remaining
    | none => scanFor lit n rest

/-- The inner `for pkg in pkg_list.split(',')` loop: trim each name,
skip empty ones, push the rest paired with the directive's options. -/
def pushNames (opts : Option (List Char)) :
    List (List Char) → List (List Char × Option (List Char)) →
    List (List Char × Option (List Char))
  | [], acc => acc
  | n :: ns, acc =>
    let t := trimChars n
    if t = [] then pushNames opts ns acc
    else pushNames opts ns (acc ++ [(t, opts)])

/-- The outer `for cap in re.captures_iter(content)` loop. -/
def pushCaps : List (Option (List Char) × List Char) →
    List (List Char × Option (List Char)) → List (List Char × Option (List Char))
  | [], acc => acc
  | (opts, body) :: cs, acc => pushCaps cs (pushNames opts (splitChar ',' body) acc)

def usepackageLit : List Char := str "\\usepackage"

def requirePackageLit : List Char := str "\\RequirePackage"

/-- `parse_usepackages`: all `\usepackage` directives first, then all
`\RequirePackage` directives, as in the source. -/
def parse_usepackages (content : List Char) : List (List Char × Option (List Char)) :=
  let caps1 := scanFor usepackageLit content.length content
  let caps2 := scanFor requirePackageLit content.length content
  pushCaps caps2 (pushCaps caps1 [])

/-!
Dependency resolver and installer.  `kpsewhich` is abstracted as a
registry oracle from a file name to a found/not-found answer; `tlmgr
install` as a per-package run outcome (`none` = the process could not
be spawned, `some b` = it exited, `b` its success flag).
-/

/-- `is_package_installed`: look up `<name>.sty`, and if that fails,
`<name>.cls`; installed iff either lookup succeeds. -/
def is_package_installed (reg : List Char → Bool) (pkg : List Char) : Bool :=
  reg (pkg ++ str ".sty") || reg (pkg ++ str ".cls")

/-- `DetectedPackage` from the source. -/
structure DetectedPackage where
  name : List Char
  installed : Bool
  options : Option (List Char)
deriving DecidableEq

/-- `PackageDetectionResult` from the source. -/
structure PackageDetectionResult where
  packages : List DetectedPackage
  missing : List (List Char)
  installed : List (List Char)
deriving DecidableEq

/-- The `for (name, options) in parsed` loop of `detect_packages`,
with its three `Vec` accumulators explicit. -/
def detectLoop (reg : List Char → Bool) :
    List (List Char × Option (List Char)) →
    List DetectedPackage → List (List Char) → List (List Char) → PackageDetectionResult
  | [], pkgs, miss, inst => ⟨pkgs, miss, inst⟩
  | (name, options) :: rest, pkgs, miss, inst =>
    let isInst := is_package_installed reg name
    if isInst then
      detectLoop reg rest (pkgs ++ [⟨name, isInst, options⟩]) miss (inst ++ [name])
    else
      detectLoop reg rest (pkgs ++ [⟨name, isInst, options⟩]) (miss ++ [name]) inst

/-- `detect_packages`: extract declared packages and resolve each one
against the registry. -/
def detect_packages (reg : List Char → Bool) (content : List Char) : PackageDetectionResult :=
  detectLoop reg (parse_usepackages content) [] [] []

/-- One `is_package_installed` call against a time-indexed registry
oracle: the first query happens at tick `t`, the fallback `.cls` query
at tick `t + 1`; returns the answer and the next free tick. -/
def isInstalledAt (oracle : Nat → List Char → Bool) (t : Nat) (pkg : List Char) :
    Bool × Nat :=
  if oracle t (pkg ++ str ".sty") then (true, t + 1)
  else (oracle (t + 1) (pkg ++ str ".cls"), t + 2)

/-- `detect_packages` against the time-indexed oracle, threading the
query tick through the sequential per-package checks. -/
def detectLoopAt (oracle : Nat → List Char → Bool) :
    List (List Char × Option (List Char)) → Nat →
    List DetectedPackage → List (List Char) → List (List Char) →
    PackageDetectionResult × Nat
  | [], t, pkgs, miss, inst => (⟨pkgs, miss, inst⟩, t)
  | (name, options) :: rest, t, pkgs, miss, inst =>
    let r := isInstalledAt oracle t name
    if r.1 then
      detectLoopAt oracle rest r.2 (pkgs ++ [⟨name, r.1, options⟩]) miss (inst ++ [name])
    else
      detectLoopAt oracle rest r.2 (pkgs ++ [⟨name, r.1, options⟩]) (miss ++ [name]) inst

/-- One full dependency-resolution run starting at query tick `t`. -/
def detect_packages_at (oracle : Nat → List Char → Bool) (t : Nat) (content : List Char) :
    PackageDetectionResult × Nat :=
  detectLoopAt oracle (parse_usepackages content) t [] [] []

/-- `AutoInstallResult` from the source. -/
structure AutoInstallResult where
  success : Bool
  installed : List (List Char)
  failed : List (List Char)
  message : List Char
deriving DecidableEq

/-- Decimal rendering of a count, as `format!` prints a `usize`. -/
def natChars (n : Nat) : List Char := (Nat.repr n).data

/-- Rust `Vec::join(", ")`. -/
def joinComma : List (List Char) → List Char
  | [] => []
  | [x] => x
  | x :: y :: t => x ++ str ", " ++ joinComma (y :: t)

/-- The `for pkg in packages` loop of `install_missing_packages`:
one `tlmgr install` run per package, recorded in the call trace; the
package lands in `installed` exactly when the run exited successfully. -/
def installLoop (run : List Char → Option Bool) :
    List (List Char) → List (List Char) → List (List Char) → List (List Char) →
    List (List Char) × List (List Char) × List (List Char)
  | [], inst, fail, calls => (inst, fail, calls)
  | p :: ps, inst, fail, calls =>
    match run p with
    | some true => installLoop run ps (inst ++ [p]) fail (calls ++ [p])
    | _ => installLoop run ps inst (fail ++ [p]) (calls ++ [p])

/-- `install_missing_packages`, returning the result and the trace of
install invocations. -/
def install_missing_packages (run : List Char → Option Bool) (packages : List (List Char)) :
    AutoInstallResult × List (List Char) :=
  let r := installLoop run packages [] [] []
  let inst := r.1
  let fail := r.2.1
  let success := fail.isEmpty
  let message :=
    if success then
      str "Successfully installed " ++ natChars inst.length ++ str " packages"
    else
      str "Installed " ++ natChars inst.length ++ str " packages, " ++
        natChars fail.length ++ str " failed: " ++ joinComma fail
  (⟨success, inst, fail, message⟩, r.2.2)

/-!
The compile pipeline.  External effects of one `compile_latex`
invocation are collected in a `CompileEnv`: outcome of workspace
creation and each file write, the two compiler pass spawns (`none`
models a spawn error), and the artifact check/read.  The second
component of the result is the trace of compiler passes started.
-/

/-- Combined output of one compiler pass. -/
structure ProcOut where
  status : Bool
  stdout : List Char
  stderr : List Char
deriving DecidableEq

/-- Environment of one `compile_latex` invocation. -/
structure CompileEnv where
  tempDirOk : Bool
  tempPath : List Char
  mainWriteOk : Bool
  auxWriteOk : List Char → Bool
  pass1 : Option ProcOut
  pass2 : Option ProcOut
  pdfExists : Bool
  pdfRead : Option (List Nat)

/-- `CompileRequest` from the source (the file map modelled as an
association list in iteration order). -/
structure CompileRequest where
  content : List Char
  files : List (List Char × List Char)
  engine : Option (List Char)

/-- `CompilationResult` from the source. -/
structure CompilationResult where
  success : Bool
  pdf_path : Option (List Char)
  pdf_data : Option (List Nat)
  log : List Char
  errors : List CompilationError
  warnings : List CompilationWarning
deriving DecidableEq

/-- `request.engine.unwrap_or_else(|| "xelatex")`. -/
def engineOf (req : CompileRequest) : List Char :=
  match req.engine with
  | some e => e
  | none => str "xelatex"

/-- First auxiliary file whose write fails, in map iteration order. -/
def firstFailedWrite (ok : List Char → Bool) : List (List Char × List Char) → Option (List Char)
  | [] => none
  | (f, _) :: rest => if ok f then firstFailedWrite ok rest else some f

/-- `format!("{}\n{}", stdout, stderr)`. -/
def combinedLog (p : ProcOut) : List Char := p.stdout ++ '\n' :: p.stderr

/-- The artifact check at the end of `compile_latex`: success and
artifact bytes are decided by the existence of `main.pdf` in the
workspace, never by the compiler's exit status. -/
def finishCompile (env : CompileEnv) (logOut : List Char) :
    Except (List Char) CompilationResult :=
  let er := parse_latex_log logOut
  if env.pdfExists then
    match env.pdfRead with
    | some data =>
      .ok ⟨true, some (env.tempPath ++ str "/main.pdf"), some data, logOut, er.1, er.2⟩
    | none => .error (str "Failed to read PDF")
  else .ok ⟨false, none, none, logOut, er.1, er.2⟩

/-- `compile_latex`: workspace materialization, the two-pass compiler
loop with its short-circuit and log retention, then the artifact
check.  Also returns the trace of compiler passes started. -/
def compile_latex (env : CompileEnv) (req : CompileRequest) :
    Except (List Char) CompilationResult × List Nat :=
  if env.tempDirOk then
    if env.mainWriteOk then
      match firstFailedWrite env.auxWriteOk req.files with
      | some f => (.error (str "Failed to write " ++ f), [])
      | none =>
        match env.pass1 with
        | none =>
          (.error (str "Failed to run " ++ engineOf req ++ str ". Is TeX Live installed?"), [1])
        | some p1 =>
          if p1.status then
            match env.pass2 with
            | none =>
              (.error (str "Failed to run " ++ engineOf req ++ str ". Is TeX Live installed?"),
                [1, 2])
            | some p2 => (finishCompile env (combinedLog p2), [1, 2])
          else (finishCompile env (combinedLog p1), [1])
    else (.error (str "Failed to write main.tex"), [])
  else (.error (str "Failed to create temp dir"), [])

/-!
Workspace write targets.  The source computes
`temp_path.join(filename)` for every auxiliary file and writes there
with no check that the result stays inside the workspace.  Paths are
modelled as component lists; `normPath` resolves `..` and `.` the way
the filesystem does.
-/

/-- Components of a relative path string. -/
def pathParts (rel : List Char) : List (List Char) := splitChar '/' rel

/-- `temp_path.join(filename)` for a relative `filename`. -/
def joinRel (root : List (List Char)) (rel : List Char) : List (List Char) :=
  root ++ pathParts rel

/-- The write targets of the auxiliary-file loop of `compile_latex`:
every file is written at the joined path, none is rejected. -/
def auxWriteTargets (root : List (List Char)) (files : List (List Char × List Char)) :
    List (List (List Char) × List Char) :=
  files.map (fun fc => (joinRel root fc.1, fc.2))

/-- Resolve `..` and `.` components. -/
def normPath (p : List (List Char)) : List (List Char) :=
  p.foldl (fun acc c =>
    if c = str ".." then acc.dropLast
    else if c = str "." ∨ c = [] then acc
    else acc ++ [c]) []

/-- Whether a path stays inside the workspace root after resolution. -/
def underRoot (root : List (List Char)) (p : List (List Char)) : Bool :=
  root.isPrefixOf (normPath p)

/-- The records one directive match contributes, described as the
claims state it: one record per comma-separated name of the brace
capture, trimmed, empty names dropped, all sharing the bracket
capture. -/
def capRecords (c : Option (List Char) × List Char) : List (List Char × Option (List Char)) :=
  (((splitChar ',' c.2).map trimChars).filter (· ≠ [])).map (fun n => (n, c.1))

/-!
Concrete instances used by witness theorems.
-/

/-- An environment where everything succeeds: both passes exit
successfully and the artifact exists. -/
def env0 : CompileEnv :=
  ⟨true, str "/tmp/ws", true, fun _ => true,
    some ⟨true, [], []⟩, some ⟨true, [], []⟩, true, some []⟩

/-- A trivial compile request. -/
def req0 : CompileRequest := ⟨[], [], none⟩

/-- An environment whose workspace creation fails. -/
def envNoTemp : CompileEnv :=
  ⟨false, str "/tmp/ws", true, fun _ => true,
    some ⟨true, [], []⟩, some ⟨true, [], []⟩, true, some []⟩

/-- A registry in which no file is found. -/
def regNone : List Char → Bool := fun _ => false

/-- A time-indexed registry oracle in which no file is ever found. -/
def oracleNone : Nat → List Char → Bool := fun _ _ => false

/-- An install runner that fails exactly on the package "bad". -/
def runBad1 : List Char → Option Bool :=
  fun p => if p = str "bad" then some false else some true

/-- A sample workspace root. -/
def wsRoot : List (List Char) := [str "tmp", str "ws"]

/-- A request file map with a traversing relative path. -/
def evilFiles : List (List Char × List Char) := [(str "../evil.tex", str "x")]

/-!
Helper lemmas.
-/

theorem parseLines_acc (ls : List (List Char)) :
    ∀ es ws, parseLines ls es ws =
      (es ++ (parseLines ls [] []).1, ws ++ (parseLines ls [] []).2) := by
  induction ls with
  | nil => intro es ws; simp [parseLines]
  | cons l t ih =>
    intro es ws
    simp only [parseLines, List.nil_append]
    rw [ih (es ++ (lineRecords l).1) (ws ++ (lineRecords l).2),
      ih (lineRecords l).1 (lineRecords l).2]
    simp [List.append_assoc]

theorem lineRecords_le_one (l : List Char) :
    (lineRecords l).1.length + (lineRecords l).2.length ≤ 1 := by
  unfold lineRecords
  repeat' split
  all_goals simp
  all_goals split <;> simp

theorem parse_latex_log_le (log : List Char) :
    (parse_latex_log log).1.length + (parse_latex_log log).2.length ≤
      (rustLines log).length := by
  unfold parse_latex_log
  generalize rustLines log = ls
  induction ls with
  | nil => simp [parseLines]
  | cons l t ih =>
    simp only [parseLines, List.nil_append]
    rw [parseLines_acc]
    have h1 := lineRecords_le_one l
    simp only [List.length_append, List.length_cons]
    omega

theorem digit_ne {c : Char} (h : c.isDigit = true) {x : Char} (hx : x.isDigit = false) :
    c ≠ x := by
  intro he
  subst he
  rw [h] at hx
  exact Bool.noConfusion hx

theorem takeWhile_app (p : Char → Bool) (d : List Char) (x : Char) (r : List Char)
    (hd : ∀ c ∈ d, p c = true) (hx : p x = false) :
    (d ++ x :: r).takeWhile p = d := by
  induction d with
  | nil => simp [List.takeWhile_cons, hx]
  | cons c t ih =>
    have hc : p c = true := hd c (List.mem_cons_self c t)
    simp [List.cons_append, List.takeWhile_cons, hc,
      ih (fun a ha => hd a (List.mem_cons_of_mem c ha))]

theorem dropWhile_app (p : Char → Bool) (d : List Char) (x : Char) (r : List Char)
    (hd : ∀ c ∈ d, p c = true) (hx : p x = false) :
    (d ++ x :: r).dropWhile p = x :: r := by
  induction d with
  | nil => simp [List.dropWhile_cons, hx]
  | cons c t ih =>
    have hc : p c = true := hd c (List.mem_cons_self c t)
    simp only [List.cons_append, List.dropWhile_cons, hc]
    exact ih (fun a ha => hd a (List.mem_cons_of_mem c ha))

theorem trim_space_cons (r : List Char) : trimChars (' ' :: r) = trimChars r := by
  have hws : isWS ' ' = true := by decide
  unfold trimChars
  rw [List.dropWhile_cons, hws]
  simp

/-!
Claim C3.  The counterexample: a line whose digits exceed the i32
range matches the claimed pattern but produces no record, because
`parse::<i32>` fails and the code silently drops the line.
-/

/-- C3 counterexample: the line "l.9999999999 x" consists of the token
l. followed by digits, a space, and a nonempty message, yet the parser
emits no record at all, because 9999999999 does not fit in an i32. -/
theorem lineNumber_overflow_dropped :
    parse_latex_log (str "l.9999999999 x") = ([], []) ∧
    allDigits (str "9999999999") = true ∧
    2147483647 < digitsVal (str "9999999999") := by
  exact ⟨rfl, by decide, by decide⟩

/-- C3 (amended): for every log line of the form l.digits space rest
whose digit run has a value representable in an i32, the parser emits
exactly one error with the parsed line number and the rest trimmed as
message, or no record at all when the trimmed rest is empty; digit
runs exceeding the i32 range yield no record (see the counterexample).
The concrete examples of the spec hold as stated. -/
theorem lineNumber_rule (d r : List Char) (hne : d ≠ [])
    (hd : ∀ c ∈ d, c.isDigit = true) (hb : digitsVal d ≤ 2147483647) :
    (trimChars r ≠ [] →
      lineRecords ('l' :: '.' :: (d ++ ' ' :: r)) =
        ([⟨(digitsVal d : Int), trimChars r, none⟩], [])) ∧
    (trimChars r = [] →
      lineRecords ('l' :: '.' :: (d ++ ' ' :: r)) = ([], [])) ∧
    parse_latex_log (str "l.42 \\foo") = ([⟨42, str "\\foo", none⟩], []) ∧
    parse_latex_log (str "l.42 ") = ([], []) := by
  have hstrip : dropLit (str "l.") ('l' :: '.' :: (d ++ ' ' :: r)) = some (d ++ ' ' :: r) := by
    simp [dropLit, str]
  have hany : (d ++ ' ' :: r).any (· = ' ') = true := by
    simp [List.any_append]
  have hdns : ∀ c ∈ d, (fun c => decide (c ≠ ' ')) c = true := by
    intro c hc
    simp only [decide_eq_true_eq]
    exact digit_ne (hd c hc) (by decide)
  have htake : (d ++ ' ' :: r).takeWhile (· ≠ ' ') = d :=
    takeWhile_app _ d ' ' r hdns (by decide)
  have hdrop : (d ++ ' ' :: r).dropWhile (· ≠ ' ') = ' ' :: r :=
    dropWhile_app _ d ' ' r hdns (by decide)
  have hparse : parseI32 d = some ((digitsVal d : Nat) : Int) := by
    cases d with
    | nil => exact absurd rfl hne
    | cons c t =>
      have hc : c.isDigit = true := hd c (List.mem_cons_self c t)
      have hcp : c ≠ '+' := digit_ne hc (by decide)
      have hcm : c ≠ '-' := digit_ne hc (by decide)
      have hall : allDigits (c :: t) = true := List.all_eq_true.mpr hd
      simp [parseI32, hcp, hcm, parseMag, hall, hb]
  have hne2 : startsWithCh '!' ('l' :: '.' :: (d ++ ' ' :: r)) = false := by
    simp [startsWithCh]
  have hmain : lineRecords ('l' :: '.' :: (d ++ ' ' :: r)) =
      (if trimChars r = [] then ([], [])
       else ([⟨(digitsVal d : Int), trimChars r, none⟩], [])) := by
    unfold lineRecords
    rw [hne2]
    simp only [Bool.false_eq_true, if_false]
    rw [hstrip]
    simp only [hany, if_true]
    rw [htake, hparse]
    simp only [hdrop, trim_space_cons]
  refine ⟨?_, ?_, rfl, rfl⟩
  · intro hr
    rw [hmain, if_neg hr]
  · intro hr
    rw [hmain, if_pos hr]

/-!
Claim C4.  The counterexample: the code strips every leading bang with
trim_start_matches, so for a line starting with two bangs the emitted
message is not the trimmed text after the (first) marker.
-/

/-- C4 counterexample: on the line "!!x" the parser emits the message
"x", while the text after the leading marker, trimmed, is "!x". -/
theorem bang_marker_multibang :
    (parse_latex_log (str "!!x")).1 = [⟨0, str "x", none⟩] ∧
    trimChars (List.drop 1 (str "!!x")) = str "!x" ∧
    str "x" ≠ str "!x" := by
  exact ⟨rfl, rfl, by decide⟩

/-- C4 (amended): for every log line beginning with a bang, the parser
emits exactly one error with line number 0 whose message is the text
after all leading bang characters, trimmed; classification applies per
line with first match winning, so the record count never exceeds the
line count and a single line yields at most one record; and the
spec's concrete example holds as stated. -/
theorem bang_rule :
    (∀ l, startsWithCh '!' l = true →
      lineRecords l = ([⟨0, trimChars (l.dropWhile (· = '!')), none⟩], [])) ∧
    (∀ l, (lineRecords l).1.length + (lineRecords l).2.length ≤ 1) ∧
    (∀ log, (parse_latex_log log).1.length + (parse_latex_log log).2.length ≤
      (rustLines log).length) ∧
    parse_latex_log (str "! Undefined control sequence.") =
      ([⟨0, str "Undefined control sequence.", none⟩], []) := by
  refine ⟨?_, lineRecords_le_one, parse_latex_log_le, rfl⟩
  intro l h
  unfold lineRecords
  rw [h]
  simp

/-- Witness for C3: the amended rule instantiated at the line
"l.42 \foo". -/
theorem lineNumber_rule_witness :
    lineRecords (str "l.42 \\foo") = ([⟨42, str "\\foo", none⟩], []) := by
  have h := (lineNumber_rule (str "42") (str "\\foo") (by decide) (by decide) (by decide)).1
    (by decide)
  exact h

/-- Witness for C4: the bang rule instantiated at the line "! abc". -/
theorem bang_rule_witness :
    lineRecords (str "! abc") = ([⟨0, str "abc", none⟩], []) := by
  have h := bang_rule.1 (str "! abc") (by decide)
  exact h

/-!
Claims C1 and C2: the compile pipeline.
-/

theorem finishCompile_ok (env : CompileEnv) (logOut : List Char) (r : CompilationResult)
    (h : finishCompile env logOut = Except.ok r) :
    r.log = logOut ∧ (r.success = true ↔ env.pdfExists = true) ∧
    (r.pdf_data.isSome = true ↔ r.success = true) := by
  unfold finishCompile at h
  split at h
  case isTrue hp =>
    cases hrd : env.pdfRead with
    | some data =>
      rw [hrd] at h
      simp only [Except.ok.injEq] at h
      subst h
      simp [hp]
    | none =>
      rw [hrd] at h
      exact absurd h (by simp)
  case isFalse hp =>
    simp only [Except.ok.injEq] at h
    subst h
    simp [hp]

theorem compile_ok_cases (env : CompileEnv) (req : CompileRequest) (r : CompilationResult)
    (h : (compile_latex env req).1 = Except.ok r) :
    ∃ logOut, finishCompile env logOut = Except.ok r := by
  unfold compile_latex at h
  split at h
  · split at h
    · split at h
      · exact absurd h (by simp)
      · split at h
        · exact absurd h (by simp)
        · split at h
          · split at h
            · exact absurd h (by simp)
            · exact ⟨_, h⟩
          · exact ⟨_, h⟩
    · exact absurd h (by simp)
  · exact absurd h (by simp)

/-- C1: for every compile invocation that returns a CompilationResult,
the success flag is true iff the expected artifact (main.pdf in the
workspace) exists after the compiler runs, and the artifact bytes are
present iff success is true, regardless of the compiler's exit
status. -/
theorem compile_artifact_iff (env : CompileEnv) (req : CompileRequest)
    (r : CompilationResult) (h : (compile_latex env req).1 = Except.ok r) :
    (r.success = true ↔ env.pdfExists = true) ∧
    (r.pdf_data.isSome = true ↔ r.success = true) := by
  obtain ⟨lo, hf⟩ := compile_ok_cases env req r h
  exact ⟨(finishCompile_ok env lo r hf).2.1, (finishCompile_ok env lo r hf).2.2⟩

/-- Witness for C1: in the all-success environment the returned
result is success with artifact bytes present. -/
theorem compile_artifact_iff_witness :
    (⟨true, some (str "/tmp/ws/main.pdf"), some [], ['\n'], [], []⟩ :
      CompilationResult).success = true ∧
    (⟨true, some (str "/tmp/ws/main.pdf"), some [], ['\n'], [], []⟩ :
      CompilationResult).pdf_data.isSome = true := by
  have h := compile_artifact_iff env0 req0
    ⟨true, some (str "/tmp/ws/main.pdf"), some [], ['\n'], [], []⟩ rfl
  exact ⟨h.1.mpr rfl, h.2.mpr (h.1.mpr rfl)⟩

/-- C2 counterexample: in an invocation whose workspace creation
fails, no compiler pass runs at all, so pass 1 does not always run in
every invocation of compile_latex. -/
theorem compile_no_pass_on_tempdir_failure :
    (compile_latex envNoTemp req0).2 = [] ∧
    1 ∉ (compile_latex envNoTemp req0).2 := by
  refine ⟨rfl, ?_⟩
  rw [show (compile_latex envNoTemp req0).2 = [] from rfl]
  simp

/-- C2 (amended): in every invocation of compile_latex in which the
workspace materializes (temp dir created, main.tex and all auxiliary
files written), pass 1 always runs; pass 2 runs iff pass 1 exited
successfully; and when a result is returned its retained log is the
pass-2 combined stdout+stderr if pass 2 ran, otherwise the pass-1
combined stdout+stderr. -/
theorem compile_two_pass (env : CompileEnv) (req : CompileRequest)
    (h1 : env.tempDirOk = true) (h2 : env.mainWriteOk = true)
    (h3 : firstFailedWrite env.auxWriteOk req.files = none) :
    1 ∈ (compile_latex env req).2 ∧
    (2 ∈ (compile_latex env req).2 ↔ ∃ p, env.pass1 = some p ∧ p.status = true) ∧
    (∀ r p1, (compile_latex env req).1 = Except.ok r → env.pass1 = some p1 →
      (p1.status = true → ∃ p2, env.pass2 = some p2 ∧ r.log = combinedLog p2) ∧
      (p1.status = false → r.log = combinedLog p1)) := by
  unfold compile_latex
  rw [h1, h2, h3]
  simp only [if_true]
  cases hp1 : env.pass1 with
  | none =>
    refine ⟨by simp, by simp, ?_⟩
    intro r p1 hr hp
    exact absurd hp (by simp)
  | some p1 =>
    dsimp only
    cases hs : p1.status with
    | true =>
      simp only [hs, if_true]
      cases hp2 : env.pass2 with
      | none =>
        dsimp only
        refine ⟨by simp, ?_, ?_⟩
        · simp only [List.mem_cons, List.mem_singleton]
          exact ⟨fun _ => ⟨p1, rfl, hs⟩, fun _ => by simp⟩
        · intro r p1' hr hp
          exact absurd hr (by simp)
      | some p2 =>
        dsimp only
        refine ⟨by simp, ?_, ?_⟩
        · simp only [List.mem_cons, List.mem_singleton]
          exact ⟨fun _ => ⟨p1, rfl, hs⟩, fun _ => by simp⟩
        · intro r p1' hr hp
          have hpp : p1' = p1 := (Option.some.inj hp).symm
          subst hpp
          refine ⟨fun _ => ⟨p2, rfl, ?_⟩, fun hfalse => absurd hs (by rw [hfalse]; simp)⟩
          exact ((finishCompile_ok env (combinedLog p2) r) (by simpa using hr)).1
    | false =>
      simp only [hs, Bool.false_eq_true, if_false]
      refine ⟨by simp, ?_, ?_⟩
      · constructor
        · intro hm
          exact absurd hm (by simp)
        · rintro ⟨p, hp, hps⟩
          have hq : p = p1 := Option.some.inj hp.symm
          rw [hq] at hps
          rw [hps] at hs
          exact Bool.noConfusion hs
      · intro r p1' hr hp
        have hpp : p1' = p1 := (Option.some.inj hp).symm
        rw [hpp]
        refine ⟨fun htrue => absurd hs (by rw [htrue]; simp), fun _ => ?_⟩
        exact ((finishCompile_ok env (combinedLog p1) r) (by simpa using hr)).1

/-- Witness for C2: in the all-success environment both passes run. -/
theorem compile_two_pass_witness :
    1 ∈ (compile_latex env0 req0).2 ∧ 2 ∈ (compile_latex env0 req0).2 := by
  have h := compile_two_pass env0 req0 rfl rfl rfl
  exact ⟨h.1, h.2.1.mpr ⟨⟨true, [], []⟩, rfl, rfl⟩⟩

/-!
Claim C5: the dependency extractor.
-/

theorem pushNames_spec (opts : Option (List Char)) (ns : List (List Char)) :
    ∀ acc, pushNames opts ns acc =
      acc ++ ((ns.map trimChars).filter (· ≠ [])).map (fun n => (n, opts)) := by
  induction ns with
  | nil => intro acc; simp [pushNames]
  | cons n t ih =>
    intro acc
    simp only [pushNames]
    by_cases h : trimChars n = []
    · rw [if_pos h, ih]
      simp [h]
    · rw [if_neg h, ih]
      simp [h, List.append_assoc]

theorem pushCaps_spec (cs : List (Option (List Char) × List Char)) :
    ∀ acc, pushCaps cs acc = acc ++ (cs.map capRecords).flatten := by
  induction cs with
  | nil => intro acc; simp [pushCaps]
  | cons c t ih =>
    intro acc
    cases c with
    | mk opts body =>
      simp only [pushCaps]
      rw [pushNames_spec, ih]
      simp [capRecords, List.append_assoc]

/-- C5: for every source text, the extractor yields, per directive
match of either form, one record per comma-separated name of that
directive's brace group, trimmed, empty names dropped, all sharing the
directive's options capture; and on the concrete example directive it
yields exactly the two records of the spec. -/
theorem usepackage_extraction :
    (∀ content : List Char,
      parse_usepackages content =
        ((scanFor usepackageLit content.length content).map capRecords).flatten ++
        ((scanFor requirePackageLit content.length content).map capRecords).flatten) ∧
    parse_usepackages (str "\\usepackage[utf8]\x7binputenc,geometry\x7d") =
      [(str "inputenc", some (str "utf8")), (str "geometry", some (str "utf8"))] := by
  constructor
  · intro content
    unfold parse_usepackages
    rw [pushCaps_spec, pushCaps_spec]
    simp
  · rfl

/-!
Claim C6: the dependency installer.
-/

theorem installLoop_spec (run : List Char → Option Bool) (ps : List (List Char)) :
    ∀ inst fail calls,
      installLoop run ps inst fail calls =
        (inst ++ ps.filter (fun p => run p == some true),
         fail ++ ps.filter (fun p => !(run p == some true)),
         calls ++ ps) := by
  induction ps with
  | nil => intro inst fail calls; simp [installLoop]
  | cons p t ih =>
    intro inst fail calls
    simp only [installLoop]
    cases hr : run p with
    | none =>
      simp [hr, ih, List.filter_cons, List.append_assoc]
    | some b =>
      cases b with
      | true =>
        simp [hr, ih, List.filter_cons, List.append_assoc]
      | false =>
        simp [hr, ih, List.filter_cons, List.append_assoc]

theorem joinComma_mem_sub (p : List Char) (l : List (List Char)) (h : p ∈ l) :
    p <:+: joinComma l := by
  induction l with
  | nil => cases h
  | cons x t ih =>
    cases t with
    | nil =>
      rcases List.mem_singleton.mp h with rfl
      exact List.infix_rfl
    | cons y tt =>
      rcases List.mem_cons.mp h with rfl | hm
      · exact ⟨[], str ", " ++ joinComma (y :: tt), by simp [joinComma, List.append_assoc]⟩
      · exact (ih hm).trans ⟨x ++ str ", ", [], by simp [joinComma, List.append_assoc]⟩

/-- C6: the installer invokes the install operation once per package,
in order; each package is recorded as installed or failed based solely
on that invocation's outcome; overall success holds iff the failed
list is empty; and the summary message is the count-reporting string
of the source, which names every failed package whenever any failure
occurred. -/
theorem install_batch_spec (run : List Char → Option Bool) (pkgs : List (List Char)) :
    (install_missing_packages run pkgs).2 = pkgs ∧
    (install_missing_packages run pkgs).1.installed =
      pkgs.filter (fun p => run p == some true) ∧
    (install_missing_packages run pkgs).1.failed =
      pkgs.filter (fun p => !(run p == some true)) ∧
    ((install_missing_packages run pkgs).1.success = true ↔
      (install_missing_packages run pkgs).1.failed = []) ∧
    (install_missing_packages run pkgs).1.message =
      (if (install_missing_packages run pkgs).1.failed = [] then
        str "Successfully installed " ++
          natChars (install_missing_packages run pkgs).1.installed.length ++
          str " packages"
      else
        str "Installed " ++
          natChars (install_missing_packages run pkgs).1.installed.length ++
          str " packages, " ++
          natChars (install_missing_packages run pkgs).1.failed.length ++
          str " failed: " ++ joinComma (install_missing_packages run pkgs).1.failed) ∧
    (∀ p ∈ (install_missing_packages run pkgs).1.failed,
      p <:+: (install_missing_packages run pkgs).1.message) := by
  have hloop := installLoop_spec run pkgs [] [] []
  simp only [List.nil_append] at hloop
  unfold install_missing_packages
  rw [hloop]
  refine ⟨rfl, rfl, rfl, ?_, ?_, ?_⟩
  · simp [List.isEmpty_iff]
  · by_cases hf : pkgs.filter (fun p => !(run p == some true)) = []
    · rw [if_pos hf]
      simp [hf, List.isEmpty_iff]
    · rw [if_neg hf]
      simp [hf, List.isEmpty_iff]
  · intro p hp
    have hp' : p ∈ pkgs.filter (fun q => !(run q == some true)) := hp
    have hne : pkgs.filter (fun q => !(run q == some true)) ≠ [] := by
      intro he
      rw [he] at hp'
      cases hp'
    have hemp : (pkgs.filter (fun q => !(run q == some true))).isEmpty = false := by
      cases he : List.isEmpty (pkgs.filter (fun q => !(run q == some true)))
      · rfl
      · exact absurd (List.isEmpty_iff.mp he) hne
    simp only [hemp, Bool.false_eq_true, if_false]
    have hj : p <:+: joinComma (pkgs.filter (fun q => !(run q == some true))) :=
      joinComma_mem_sub p _ hp'
    refine hj.trans ⟨str "Installed " ++
      natChars (pkgs.filter (fun q => run q == some true)).length ++
      str " packages, " ++
      natChars (pkgs.filter (fun q => !(run q == some true))).length ++
      str " failed: ", [], by simp [List.append_assoc]⟩

/-- Witness for C6: a batch with one failing package yields that
package in the failed list and named inside the summary message. -/
theorem install_batch_spec_witness :
    (install_missing_packages runBad1 [str "x", str "bad"]).1.failed = [str "bad"] ∧
    (str "bad") <:+: (install_missing_packages runBad1 [str "x", str "bad"]).1.message := by
  have h := install_batch_spec runBad1 [str "x", str "bad"]
  refine ⟨rfl, ?_⟩
  refine h.2.2.2.2.2 (str "bad") ?_
  rw [show (install_missing_packages runBad1 [str "x", str "bad"]).1.failed =
    [str "bad"] from rfl]
  exact List.mem_singleton.mpr rfl

/-!
Claims C7 and C10: the dependency resolver over the extracted list.
-/

theorem detectLoop_spec (reg : List Char → Bool)
    (parsed : List (List Char × Option (List Char))) :
    ∀ pkgs miss inst,
      detectLoop reg parsed pkgs miss inst =
        ⟨pkgs ++ parsed.map (fun po => ⟨po.1, is_package_installed reg po.1, po.2⟩),
         miss ++ (parsed.filter (fun po => !is_package_installed reg po.1)).map
           (fun po => po.1),
         inst ++ (parsed.filter (fun po => is_package_installed reg po.1)).map
           (fun po => po.1)⟩ := by
  induction parsed with
  | nil => intro pkgs miss inst; simp [detectLoop]
  | cons po t ih =>
    intro pkgs miss inst
    cases po with
    | mk name options =>
      simp only [detectLoop]
      cases hins : is_package_installed reg name with
      | true =>
        simp [hins, ih, List.filter_cons, List.append_assoc]
      | false =>
        simp [hins, ih, List.filter_cons, List.append_assoc]

theorem length_filter_split {α : Type} (p : α → Bool) (l : List α) :
    l.length = (l.filter p).length + (l.filter (fun a => !p a)).length := by
  induction l with
  | nil => rfl
  | cons a t ih =>
    cases h : p a <;> simp [List.filter_cons, h, ih] <;> omega

/-- C7 counterexample: a source declaring the same package twice
produces a status list naming that package twice, so the resolved list
does not contain one entry per unique declared dependency. -/
theorem detect_duplicate_statuses :
    ((detect_packages regNone
      (str "\\usepackage\x7ba\x7d\\usepackage\x7ba\x7d")).packages.map
      (fun p => p.name)) = [str "a", str "a"] ∧
    ¬ ((detect_packages regNone
      (str "\\usepackage\x7ba\x7d\\usepackage\x7ba\x7d")).packages.map
      (fun p => p.name)).Nodup := by
  exact ⟨rfl, by decide⟩

/-- C7 (amended): the resolver produces exactly one DependencyStatus
per declared occurrence, in extraction order, so a package declared
several times appears several times; no deduplication takes place. -/
theorem detect_per_occurrence (reg : List Char → Bool) (content : List Char) :
    (detect_packages reg content).packages =
      (parse_usepackages content).map
        (fun po => ⟨po.1, is_package_installed reg po.1, po.2⟩) := by
  unfold detect_packages
  rw [detectLoop_spec]
  simp

/-- C10: the detection result partitions the extracted packages: the
packages list carries one entry with an installed flag per extracted
occurrence in extraction order, the installed and missing name lists
are exactly the names with flag true resp. false in that order, and
the lengths add up. -/
theorem detect_partition (reg : List Char → Bool) (content : List Char) :
    (detect_packages reg content).packages.map (fun p => (p.name, p.options)) =
      (parse_usepackages content).map (fun po => (po.1, po.2)) ∧
    (detect_packages reg content).installed =
      ((detect_packages reg content).packages.filter (fun p => p.installed)).map
        (fun p => p.name) ∧
    (detect_packages reg content).missing =
      ((detect_packages reg content).packages.filter (fun p => !p.installed)).map
        (fun p => p.name) ∧
    (detect_packages reg content).packages.length =
      (detect_packages reg content).installed.length +
      (detect_packages reg content).missing.length := by
  unfold detect_packages
  rw [detectLoop_spec]
  simp only [List.nil_append]
  refine ⟨?_, ?_, ?_, ?_⟩
  · rw [List.map_map]
    rfl
  · rw [List.filter_map, List.map_map]
    rfl
  · rw [List.filter_map, List.map_map]
    rfl
  · rw [List.length_map, List.length_map, List.length_map]
    exact length_filter_split _ _

/-!
Claim C8: path traversal in workspace materialization.
-/

/-- C8: the auxiliary-file loop computes the write target by plain
path join with no rejection, so the traversing path ../evil.tex of the
failing input is written at a location that resolves outside the
workspace root. -/
theorem traversal_write_escapes_workspace :
    auxWriteTargets wsRoot evilFiles =
      [([str "tmp", str "ws", str "..", str "evil.tex"], str "x")] ∧
    normPath [str "tmp", str "ws", str "..", str "evil.tex"] =
      [str "tmp", str "evil.tex"] ∧
    underRoot wsRoot [str "tmp", str "ws", str "..", str "evil.tex"] = false := by
  exact ⟨rfl, rfl, rfl⟩

/-!
Claim C9: idempotence of dependency resolution against an unchanged
registry.
-/

theorem isInstalledAt_inv (oracle : Nat → List Char → Bool)
    (hInv : ∀ t t' q, oracle t q = oracle t' q) (t : Nat) (pkg : List Char) :
    (isInstalledAt oracle t pkg).1 = is_package_installed (oracle 0) pkg := by
  unfold isInstalledAt is_package_installed
  rw [hInv t 0, hInv (t + 1) 0]
  cases h : oracle 0 (pkg ++ str ".sty") <;> simp [h]

theorem detectLoopAt_inv (oracle : Nat → List Char → Bool)
    (hInv : ∀ t t' q, oracle t q = oracle t' q)
    (parsed : List (List Char × Option (List Char))) :
    ∀ t pkgs miss inst,
      (detectLoopAt oracle parsed t pkgs miss inst).1 =
        detectLoop (oracle 0) parsed pkgs miss inst := by
  induction parsed with
  | nil => intro t pkgs miss inst; rfl
  | cons po rest ih =>
    intro t pkgs miss inst
    cases po with
    | mk name options =>
      have h1 := isInstalledAt_inv oracle hInv t name
      simp only [detectLoopAt, detectLoop]
      cases hins : is_package_installed (oracle 0) name with
      | true =>
        rw [hins] at h1
        simp [h1, hins, ih]
      | false =>
        rw [hins] at h1
        simp [h1, hins, ih]

/-- C9: for every document source and every time-invariant registry
oracle (an unchanged toolchain state), dependency resolution started
at any two query ticks returns identical results: same names, same
installed booleans, same carried-through options, in the same
order. -/
theorem resolution_idempotent (oracle : Nat → List Char → Bool)
    (hInv : ∀ t t' q, oracle t q = oracle t' q) (content : List Char) (t t' : Nat) :
    (detect_packages_at oracle t content).1 = (detect_packages_at oracle t' content).1 := by
  unfold detect_packages_at
  rw [detectLoopAt_inv oracle hInv, detectLoopAt_inv oracle hInv]

/-- Witness for C9: a second resolution run starting where the first
ended returns the identical result. -/
theorem resolution_idempotent_witness :
    (detect_packages_at oracleNone 0 (str "\\usepackage\x7ba\x7d")).1 =
      (detect_packages_at oracleNone
        (detect_packages_at oracleNone 0 (str "\\usepackage\x7ba\x7d")).2
        (str "\\usepackage\x7ba\x7d")).1 :=
  resolution_idempotent oracleNone (fun _ _ _ => rfl) (str "\\usepackage\x7ba\x7d") 0 _

end Offleaf
